import Mathlib

/-!
# ST24 control server: response collection, field parsers and the poll sequence

A shallow embedding of `src/server.js`.

* JavaScript strings are lists of characters (`Str`); every character the
  patterns and sentinels of the server inspect lies in the Basic Multilingual
  Plane, where a UTF-16 code unit and a code point coincide.
* JavaScript numbers are IEEE-754 doubles (`JsNumber`): `Number`, unary `+`
  and `/ 10` round to the nearest double, ties to even, as V8 does.
* The regular expressions of the five parsers are values of `Regex`, run by a
  backtracking matcher written in continuation-passing style after the
  matcher semantics of ECMA-262 (greedy quantifiers, leftmost match).
* The empty object `{}` returned by a parser is `none`; a full record is
  `some r`.
-/

namespace ST24

/-! ## Strings -/

/-- A JavaScript string value. -/
abbrev Str := List Char

/-- Line terminators of ECMA-262: LF, CR, LS, PS. -/
def isLineTerminator (c : Char) : Bool :=
  c.toNat == 0x0A || c.toNat == 0x0D || c.toNat == 0x2028 || c.toNat == 0x2029

/-- White space of ECMA-262 (TAB, VT, FF, ZWNBSP and the space separators)
together with the line terminators: the characters `String.prototype.trim`
strips and the class `\s` matches. -/
def isSpace (c : Char) : Bool :=
  c.toNat == 0x09 || c.toNat == 0x0B || c.toNat == 0x0C || c.toNat == 0x20 ||
  c.toNat == 0xA0 || c.toNat == 0x1680 ||
  (decide (0x2000 ≤ c.toNat) && decide (c.toNat ≤ 0x200A)) ||
  c.toNat == 0x202F || c.toNat == 0x205F || c.toNat == 0x3000 || c.toNat == 0xFEFF ||
  isLineTerminator c

/-- The class `\d`: the ten ASCII digits. -/
def isDigit (c : Char) : Bool :=
  decide (0x30 ≤ c.toNat) && decide (c.toNat ≤ 0x39)

/-- The class `[0-9A-Fa-f]`. -/
def isHex (c : Char) : Bool :=
  isDigit c ||
  (decide (0x41 ≤ c.toNat) && decide (c.toNat ≤ 0x46)) ||
  (decide (0x61 ≤ c.toNat) && decide (c.toNat ≤ 0x66))

/-- The class `.` (no `s` flag): any character but a line terminator. -/
def isDot (c : Char) : Bool := !isLineTerminator c

/-- The class `[+-]`. -/
def isSign (c : Char) : Bool := c == '+' || c == '-'

/-- `s.trim()`: strip white space and line terminators from both ends. -/
def trim (s : Str) : Str :=
  ((s.dropWhile isSpace).reverse.dropWhile isSpace).reverse

/-- `s.startsWith(sub)`. -/
def startsWith (s sub : Str) : Bool := sub.isPrefixOf s

/-- `s.includes(sub)`: `sub` occurs at some position of `s`. -/
def includes : Str → Str → Bool
  | [], sub => sub.isPrefixOf []
  | c :: cs, sub => sub.isPrefixOf (c :: cs) || includes cs sub

/-! ## Regular expressions -/

/-- A quantified character class: `x`, `x?`, `x*`, `x+`. -/
inductive Atom where
  | one (p : Char → Bool)
  | opt (p : Char → Bool)
  | star (p : Char → Bool)
  | plus (p : Char → Bool)

/-- A pattern element: an atom outside any group, or a capture group holding
a sequence of atoms. -/
inductive Node where
  | atom (a : Atom)
  | group (body : List Atom)

/-- A pattern: a sequence of elements. -/
abbrev Regex := List Node

/-- Greedy repetition: consume as many characters of the class as possible,
giving back one at a time while the continuation fails. -/
def mStar {R : Type} (p : Char → Bool) : Str → (Str → Option R) → Option R
  | [], k => k []
  | c :: cs, k =>
    if p c then
      match mStar p cs k with
      | some r => some r
      | none => k (c :: cs)
    else k (c :: cs)

/-- Matcher of one atom at the head of `s`, with continuation `k`. -/
def mAtom {R : Type} : Atom → Str → (Str → Option R) → Option R
  | .one p, s, k =>
    match s with
    | c :: cs => if p c then k cs else none
    | [] => none
  | .opt p, s, k =>
    match s with
    | c :: cs =>
      if p c then
        match k cs with
        | some r => some r
        | none => k (c :: cs)
      else k (c :: cs)
    | [] => k []
  | .star p, s, k => mStar p s k
  | .plus p, s, k =>
    match s with
    | c :: cs => if p c then mStar p cs k else none
    | [] => none

/-- Matcher of a sequence of atoms. -/
def mAtoms {R : Type} : List Atom → Str → (Str → Option R) → Option R
  | [], s, k => k s
  | a :: as, s, k => mAtom a s (fun s' => mAtoms as s' k)

/-- Matcher of a pattern at the head of `s`: the remaining input handed to
the final continuation, with the texts of the capture groups in order. -/
def mNodes : Regex → Str → Option (Str × List Str)
  | [], s => some (s, [])
  | .atom a :: ns, s => mAtom a s (fun s' => mNodes ns s')
  | .group body :: ns, s =>
    mAtoms body s (fun s' =>
      match mNodes ns s' with
      | some (rest, caps) => some (rest, s.take (s.length - s'.length) :: caps)
      | none => none)

/-- `s.match(re)` for a pattern without the `g` flag: the leftmost match.
The result lists the matched text at index 0 and the capture groups from
index 1, as the JavaScript match array does; `none` is `null`. -/
def regexMatch (re : Regex) : Str → Option (List Str)
  | [] =>
    match mNodes re [] with
    | some (_, caps) => some ([] :: caps)
    | none => none
  | c :: cs =>
    match mNodes re (c :: cs) with
    | some (rest, caps) =>
      some ((c :: cs).take ((c :: cs).length - rest.length) :: caps)
    | none => regexMatch re cs

/-- A literal character of a pattern. -/
def lit (c : Char) : Node := .atom (.one (fun x => x == c))

/-- A literal ASCII letter of a pattern under the `i` flag: it matches the
letter in either case. -/
def litI (c : Char) : Node := .atom (.one (fun x => x.toUpper == c.toUpper))

/-- The group `(\d+)`. -/
def digits : Node := .group [.plus isDigit]

/-- The group `([+-]?\d+\.\d+)`. -/
def signedDecimal : Node :=
  .group [.opt isSign, .plus isDigit, .one (fun x => x == '.'), .plus isDigit]

/-- The group `(\d+\.\d+)`. -/
def decimal : Node :=
  .group [.plus isDigit, .one (fun x => x == '.'), .plus isDigit]

/-- The element `\s*`. -/
def spaces : Node := .atom (.star isSpace)

/-- `/L(\d+)t(\d+)N(\d+).*:(\d+)/` -/
def reR : Regex :=
  [lit 'L', digits, lit 't', digits, lit 'N', digits, .atom (.star isDot), lit ':', digits]

/-- `/E(\d+)A(\d+)p(\d+)R(\d+)/i` -/
def reP : Regex :=
  [litI 'E', digits, litI 'A', digits, litI 'p', digits, litI 'R', digits]

/-- `/XT:([+-]?\d+\.\d+),\s*YT:([+-]?\d+\.\d+),\s*RP:([+-]?\d+\.\d+):([+-]?\d+\.\d+)/` -/
def reH : Regex :=
  [lit 'X', lit 'T', lit ':', signedDecimal, lit ',', spaces,
   lit 'Y', lit 'T', lit ':', signedDecimal, lit ',', spaces,
   lit 'R', lit 'P', lit ':', signedDecimal, lit ':', signedDecimal]

/-- `/RL:([+-]?\d+\.\d+),\s*PT:([+-]?\d+\.\d+),\s*YA:(\d+\.\d+)/` -/
def reG : Regex :=
  [lit 'R', lit 'L', lit ':', signedDecimal, lit ',', spaces,
   lit 'P', lit 'T', lit ':', signedDecimal, lit ',', spaces,
   lit 'Y', lit 'A', lit ':', decimal]

/-- `/^[0-9A-Fa-f]{4}$/.test(l)`: the whole of `l` is four hexadecimal digits. -/
def isHex4 (l : Str) : Bool := l.length == 4 && l.all isHex

/-! ## Numbers -/

/-- A JavaScript number that a conversion or a division by ten can produce:
a finite IEEE-754 double `±m·2^e` in canonical form (`m < 2^53`;
`2^52 ≤ m` unless `e = -1074`; a zero is `m = 0`, `e = 0`), or an infinity.
NaN does not arise from the texts the patterns capture. -/
inductive JsNumber where
  | finite (neg : Bool) (m : Nat) (e : Int)
  | infinite (neg : Bool)
deriving DecidableEq

/-- `a / b` rounded to the nearest integer, ties to the even one. -/
def roundHalfEven (a b : Nat) : Nat :=
  let q := a / b
  let r := a % b
  if 2 * r < b then q
  else if b < 2 * r then q + 1
  else if q % 2 = 0 then q else q + 1

/-- Halve `n` until it is below 2, at most `fuel` times, counting the steps. -/
def log2Aux : Nat → Nat → Nat
  | 0, _ => 0
  | fuel + 1, n => if n < 2 then 0 else log2Aux fuel (n / 2) + 1

/-- `⌊log₂ n⌋` for positive `n` (and 0 for 0). -/
def log2 (n : Nat) : Nat := log2Aux n n

/-- `⌊log₂ (a / b)⌋` for positive `a` and `b`. -/
def floorLog2 (a b : Nat) : Int :=
  let d : Int := (log2 a : Int) - (log2 b : Int)
  if b * 2 ^ d.toNat ≤ a * 2 ^ (-d).toNat then d else d - 1

/-- The double nearest to `±a / b` (`b` positive), ties to the even
mantissa, overflowing to an infinity: the rounding of IEEE-754 that
`Number`, unary `+` and `/` perform. -/
def roundDouble (neg : Bool) (a b : Nat) : JsNumber :=
  if a = 0 then JsNumber.finite neg 0 0
  else
    let e : Int := max (floorLog2 a b - 52) (-1074)
    let m := roundHalfEven (a * 2 ^ (-e).toNat) (b * 2 ^ e.toNat)
    if m = 0 then JsNumber.finite neg 0 0
    else if m = 2 ^ 53 then
      (if 971 < e + 1 then JsNumber.infinite neg else JsNumber.finite neg (2 ^ 52) (e + 1))
    else if 971 < e then JsNumber.infinite neg
    else JsNumber.finite neg m e

/-- `x / 10`. -/
def divTen : JsNumber → JsNumber
  | JsNumber.finite neg m e => roundDouble neg (m * 2 ^ e.toNat) (10 * 2 ^ (-e).toNat)
  | JsNumber.infinite neg => JsNumber.infinite neg

/-- The rational a finite number denotes; an infinity denotes none. -/
def JsNumber.toRat : JsNumber → Option ℚ
  | JsNumber.finite neg m e => some ((if neg then -1 else 1) * (m : ℚ) * (2 : ℚ) ^ e)
  | JsNumber.infinite _ => none

/-- Value of a decimal digit. -/
def digitVal (c : Char) : Nat := c.toNat - 0x30

/-- The natural number a run of decimal digits denotes. -/
def natOfDigits (s : Str) : Nat := s.foldl (fun n c => 10 * n + digitVal c) 0

/-- Value of an unsigned decimal literal (digits, then optionally a point
and more digits) under the sign `neg`: the double nearest to the number the
literal denotes. -/
def unsignedValue (neg : Bool) (s : Str) : JsNumber :=
  let ip := s.takeWhile isDigit
  let fp := (s.dropWhile isDigit).drop 1
  roundDouble neg (natOfDigits (ip ++ fp)) (10 ^ fp.length)

/-- `Number(s)` and unary `+s` on the texts the patterns capture: an optional
sign, a run of decimal digits and an optional fraction, converted with
correct rounding. The empty string converts to 0. -/
def Number : Str → JsNumber
  | [] => JsNumber.finite false 0 0
  | c :: r =>
    if c == '-' then unsignedValue true r
    else if c == '+' then unsignedValue false r
    else unsignedValue false (c :: r)

/-- Value of a hexadecimal digit. -/
def hexDigitVal (c : Char) : Nat :=
  if isDigit c then c.toNat - 0x30
  else if 0x41 ≤ c.toNat ∧ c.toNat ≤ 0x46 then c.toNat - 0x41 + 10
  else c.toNat - 0x61 + 10

/-- `parseInt(s, 16)` on a run of hexadecimal digits. -/
def parseInt16 (s : Str) : Nat := s.foldl (fun n c => 16 * n + hexDigitVal c) 0

/-! ## Field parsers -/

/-- Record of `parseR`. -/
structure Signal where
  level : JsNumber
  threshold : JsNumber
  nid : Str
  count : JsNumber
deriving DecidableEq

/-- Record of `parseP`. -/
structure Position where
  el : JsNumber
  az : JsNumber
  pol : JsNumber
  rel : JsNumber
deriving DecidableEq

/-- Record of `parseH`. -/
structure Inclin where
  xt : JsNumber
  yt : JsNumber
  rp1 : JsNumber
  rp2 : JsNumber
deriving DecidableEq

/-- Record of `parseG`. -/
structure Attitude where
  roll : JsNumber
  pitch : JsNumber
  yaw : JsNumber
deriving DecidableEq

/-- Record of `parseStatus`. -/
structure Status where
  raw : Str
  NIDOK : Bool
  TRACKF : Bool
  THRSF : Bool
  SRCHF : Bool
deriving DecidableEq

/-- Element `i` of a match array (`match[i]`). -/
def grp (m : List Str) (i : Nat) : Str := m.getD i []

/-- Line selection of `parseR`: `l.includes('L')`. -/
def selR (l : Str) : Bool := includes l ['L']

/-- Line selection of `parseP`: `l.startsWith('E')`. -/
def selP (l : Str) : Bool := startsWith l ['E']

/-- Line selection of `parseH`: `l.includes('XT')`. -/
def selH (l : Str) : Bool := includes l ['X', 'T']

/-- Line selection of `parseG`: `l.includes('RL:')`. -/
def selG (l : Str) : Bool := includes l ['R', 'L', ':']

/-- `lines.find(sel) || ''`. -/
def pick (sel : Str → Bool) (lines : List Str) : Str := (lines.find? sel).getD []

/-- `parseR(lines)`. -/
def parseR (lines : List Str) : Option Signal :=
  let data := pick selR lines
  match regexMatch reR data with
  | some m =>
    some { level := Number (grp m 1), threshold := Number (grp m 2),
           nid := grp m 3, count := Number (grp m 4) }
  | none => none

/-- `parseP(lines)`. -/
def parseP (lines : List Str) : Option Position :=
  let data := pick selP lines
  match regexMatch reP data with
  | none => none
  | some m =>
    some { el := divTen (Number (grp m 1)), az := divTen (Number (grp m 2)),
           pol := divTen (Number (grp m 3)), rel := Number (grp m 4) }

/-- `parseH(lines)`. -/
def parseH (lines : List Str) : Option Inclin :=
  let data := pick selH lines
  match regexMatch reH data with
  | some m =>
    some { xt := Number (grp m 1), yt := Number (grp m 2),
           rp1 := Number (grp m 3), rp2 := Number (grp m 4) }
  | none => none

/-- `parseG(lines)`. -/
def parseG (lines : List Str) : Option Attitude :=
  let data := pick selG lines
  match regexMatch reG data with
  | some m =>
    some { roll := Number (grp m 1), pitch := Number (grp m 2), yaw := Number (grp m 3) }
  | none => none

/-- `parseStatus(lines)`. -/
def parseStatus (lines : List Str) : Option Status :=
  match lines.find? isHex4 with
  | none => none
  | some data =>
    if data.isEmpty then none
    else
      let val := parseInt16 data
      some { raw := data,
             NIDOK := (val &&& 0x0001) != 0,
             TRACKF := (val &&& 0x0002) != 0,
             THRSF := (val &&& 0x0004) != 0,
             SRCHF := (val &&& 0x0008) != 0 }

/-! ## Response collector (the listener and the timer inside `sendAndWait`) -/

/-- The terminal sentinels `['>', '#', '*']`. -/
def sentinels : List Str := [['>'], ['#'], ['*']]

/-- The placeholder line `'(timeout)'`. -/
def timeoutLine : Str := "(timeout)".toList

/-- State of one `sendAndWait` promise: the array `lines`, the flag
`started`, whether `onData` is still registered on the parser, and the value
the promise was resolved with, if it has been. A promise is resolved once:
the awaiting handler resumes with that value before any later line or timer
is processed, so `resolved` records the content of `lines` at that moment. -/
structure Collector where
  lines : List Str
  started : Bool
  listening : Bool
  resolved : Option (List Str)
deriving DecidableEq

/-- State right after `parser.on('data', onData)`. -/
def Collector.init : Collector :=
  { lines := [], started := false, listening := true, resolved := none }

/-- One line delivered by the parser: the body of `onData`, run only while
the listener is registered. -/
def onData (c : Collector) (line : Str) : Collector :=
  if !c.listening then c
  else
    let clean := trim line
    if clean.isEmpty then c
    else if !c.started && clean == ['>'] then { c with started := true }
    else if c.started && sentinels.contains clean then
      { c with listening := false, resolved := some c.lines }
    else { c with started := true, lines := c.lines ++ [clean] }

/-- The `setTimeout` callback: remove the listener, push the placeholder when
`lines` is empty, resolve with `lines` (without effect on a promise that is
already resolved). -/
def onTimeout (c : Collector) : Collector :=
  let lines := if c.lines.length == 0 then c.lines ++ [timeoutLine] else c.lines
  { c with
    listening := false
    lines := lines
    resolved := match c.resolved with
      | some b => some b
      | none => some lines }

/-- Collector state after the lines `arrivals` were delivered in order. -/
def feed (arrivals : List Str) : Collector := arrivals.foldl onData Collector.init

/-- The block a `sendAndWait` promise yields when `arrivals` are the lines
the parser delivers between the registration of the listener and the
deadline, the deadline firing after them. -/
def collect (arrivals : List Str) : List Str :=
  match (onTimeout (feed arrivals)).resolved with
  | some b => b
  | none => []

/-! ## The poll sequence (`GET /api/status`) -/

/-- Observable actions of the handler on the channel and on its promises. -/
inductive Event where
  /-- `parser.on('data', onData)` -/
  | subscribe
  /-- `port.write(bytes)` returned -/
  | write (bytes : Str)
  /-- `port.write(bytes)` raised -/
  | writeRaised (bytes : Str)
  /-- the port reported a failed write on its `error` event, which the
  listener installed by `/api/connect` logs -/
  | writeError
  /-- the collector settled: listener removed, promise resolved with `block` -/
  | settle (block : List Str)
  /-- `await delay(ms)` -/
  | delay (ms : Nat)
deriving DecidableEq

/-- The serial port object, as far as the handler inspects it. -/
structure Port where
  isOpen : Bool
deriving DecidableEq

/-- Module state of the server: `port`, `busy`, and the history of actions. -/
structure Server where
  port : Option Port
  busy : Bool
  log : List Event
deriving DecidableEq

/-- What the environment decides for one step: whether `port.write` raises,
whether the write fails (the port reports the failure on its `error` event
after the call has returned), and the lines the parser delivers while that
step's collector is pending. -/
structure StepEnv where
  writeRaises : Bool
  writeFails : Bool
  arrivals : List Str

/-- `sendAndWait(cmd)`: register the listener, write `cmd + '\r'`, arm the
timer and settle with the collected block. A write that raises inside the
promise executor rejects the promise (`none`) before the timer is armed. A
write that fails is no different to the handler from one that succeeds: the
call returns, the failure is logged from the port's `error` event, and the
collector runs to its settlement. -/
def sendAndWait (cmd : Str) (env : StepEnv) (log : List Event) :
    Option (List Str) × List Event :=
  let log := log ++ [Event.subscribe]
  if env.writeRaises then (none, log ++ [Event.writeRaised (cmd ++ ['\r'])])
  else
    let log := log ++ [Event.write (cmd ++ ['\r'])]
    let log := if env.writeFails then log ++ [Event.writeError] else log
    let block := collect env.arrivals
    (some block, log ++ [Event.settle block])

/-- The object `result`: a key is `none` until it is assigned; an assigned
key holds the parser's record, `some none` being the empty object. -/
structure Result where
  signal : Option (Option Signal)
  position : Option (Option Position)
  inclin : Option (Option Inclin)
  attitude : Option (Option Attitude)
  status : Option (Option Status)
deriving DecidableEq

/-- `const result = {}`. -/
def Result.empty : Result :=
  { signal := none, position := none, inclin := none, attitude := none, status := none }

/-- The JSON body of the response: `{connected, busy?, ...result}`. -/
structure Response where
  connected : Bool
  busy : Option Bool
  result : Result
deriving DecidableEq

/-- The `try` block: the seven steps in order, each awaited before the next
statement runs. A rejected `sendAndWait` leaves the block at once, keeping
what `result` and the log hold at that point. Step `i` (from 0) takes its
environment from `env i`. -/
def pollBody (env : Nat → StepEnv) (log : List Event) : Result × List Event :=
  let result := Result.empty
  match sendAndWait ['$'] (env 0) log with
  | (none, log) => (result, log)
  | (some _, log) =>
  let log := log ++ [Event.delay 150]
  match sendAndWait ['R'] (env 1) log with
  | (none, log) => (result, log)
  | (some b, log) =>
  let result := { result with signal := some (parseR b) }
  let log := log ++ [Event.delay 150]
  match sendAndWait ['P'] (env 2) log with
  | (none, log) => (result, log)
  | (some b, log) =>
  let result := { result with position := some (parseP b) }
  let log := log ++ [Event.delay 150]
  match sendAndWait ['H'] (env 3) log with
  | (none, log) => (result, log)
  | (some b, log) =>
  let result := { result with inclin := some (parseH b) }
  let log := log ++ [Event.delay 150]
  match sendAndWait ['G'] (env 4) log with
  | (none, log) => (result, log)
  | (some b, log) =>
  let result := { result with attitude := some (parseG b) }
  let log := log ++ [Event.delay 150]
  match sendAndWait ['^', 'S'] (env 5) log with
  | (none, log) => (result, log)
  | (some b, log) =>
  let result := { result with status := some (parseStatus b) }
  let log := log ++ [Event.delay 150]
  match sendAndWait ['%'] (env 6) log with
  | (none, log) => (result, log)
  | (some _, log) => (result, log)

/-- The handler of `GET /api/status`: the two early returns, then
`busy = true`, the `try` block, `busy = false` in `finally`, and the response
`{connected: true, ...result}`. -/
def apiStatus (env : Nat → StepEnv) (sv : Server) : Response × Server :=
  if (match sv.port with
      | none => true
      | some p => !p.isOpen) then
    ({ connected := false, busy := none, result := Result.empty }, sv)
  else if sv.busy then
    ({ connected := true, busy := some true, result := Result.empty }, sv)
  else
    let sv := { sv with busy := true }
    let (result, log) := pollBody env sv.log
    let sv := { sv with log := log, busy := false }
    ({ connected := true, busy := none, result := result }, sv)

/-- The bytes written to the channel, in order. -/
def writesOf : List Event → List Str
  | [] => []
  | Event.write b :: es => b :: writesOf es
  | _ :: es => writesOf es


/-! ## Auxiliary definitions for the statements -/

/-- The non-blank lines of an arrival sequence, trimmed, in arrival order. -/
def nonBlank (ls : List Str) : List Str := (ls.map trim).filter (fun l => !l.isEmpty)

/-- What the collector holds in `lines` while it has not settled, in the
words of the state machine: the non-blank trimmed lines in arrival order,
without the start sentinel when the first of them is one. -/
def buffered (ls : List Str) : List Str :=
  match nonBlank ls with
  | [] => []
  | x :: xs => if x == ['>'] then xs else x :: xs

/-- Collector that has started and is still listening, holding `acc`. -/
def collecting (acc : List Str) : Collector :=
  { lines := acc, started := true, listening := true, resolved := none }

/-- The channel is open: `port && port.isOpen`. -/
def channelOpen (sv : Server) : Bool :=
  match sv.port with
  | none => false
  | some p => p.isOpen

/-- The seven commands of one poll, in order. -/
def commands : List Str := [['$'], ['R'], ['P'], ['H'], ['G'], ['^', 'S'], ['%']]

/-- Actions of one step that runs to settlement: registration, the write,
the report of its failure when it failed, the settlement. -/
def stepTrace (cmd : Str) (env : StepEnv) : List Event :=
  [Event.subscribe, Event.write (cmd ++ ['\r'])] ++
  (if env.writeFails then [Event.writeError] else []) ++
  [Event.settle (collect env.arrivals)]

/-- Actions of a whole poll in which every step settles with the block its
collector yields. -/
def pollTrace (env : Nat → StepEnv) : List Event :=
  stepTrace ['$'] (env 0) ++ [Event.delay 150] ++
  stepTrace ['R'] (env 1) ++ [Event.delay 150] ++
  stepTrace ['P'] (env 2) ++ [Event.delay 150] ++
  stepTrace ['H'] (env 3) ++ [Event.delay 150] ++
  stepTrace ['G'] (env 4) ++ [Event.delay 150] ++
  stepTrace ['^', 'S'] (env 5) ++ [Event.delay 150] ++
  stepTrace ['%'] (env 6)

/-- No write happens while a collector is pending: a write makes the
collector pending, a settlement ends that. -/
def writesAwaitSettle : Bool → List Event → Bool
  | _, [] => true
  | pending, Event.write _ :: es => !pending && writesAwaitSettle true es
  | _, Event.settle _ :: es => writesAwaitSettle false es
  | pending, Event.subscribe :: es => writesAwaitSettle pending es
  | pending, Event.writeRaised _ :: es => writesAwaitSettle pending es
  | pending, Event.writeError :: es => writesAwaitSettle pending es
  | pending, Event.delay _ :: es => writesAwaitSettle pending es

/-- Environment in which no write raises and step `i` receives `arr i`. -/
def quietEnv (arr : Nat → List Str) : Nat → StepEnv :=
  fun i => { writeRaises := false, writeFails := false, arrivals := arr i }

/-- Environment in which the write of step `k` raises and nothing arrives. -/
def raiseAt (k : Nat) : Nat → StepEnv :=
  fun i => { writeRaises := i == k, writeFails := false, arrivals := [] }

/-- Arrivals of a poll whose `R` and `H` steps hear nothing and whose other
steps are answered. -/
def sampleArrivals : Nat → List Str
  | 0 => [['>'], ['>']]
  | 2 => [['>'], "E0372A1993p0015R0000".toList, ['>']]
  | 4 => [['>'], "RL:+00.1, PT:-01.1, YA:199.5".toList, ['>']]
  | 5 => [['>'], "0007".toList, ['>']]
  | 6 => [['>'], ['>']]
  | _ => []

/-- Environment in which no write raises, the write of step `k` fails, and
step `i` receives `arr i`. -/
def failAt (k : Nat) (arr : Nat → List Str) : Nat → StepEnv :=
  fun i => { writeRaises := false, writeFails := i == k, arrivals := arr i }

/-- Arrivals of a poll whose `P` step hears nothing and whose other steps
are answered. -/
def silentP : Nat → List Str
  | 0 => [['>'], ['>']]
  | 1 => [['>'], "L2234t2033N055F@@R1:35".toList, ['>']]
  | 3 => [['>'], "XT:+00.0, YT:-01.1, RP:+014.7:+014.8".toList, ['>']]
  | 4 => [['>'], "RL:+00.1, PT:-01.1, YA:199.5".toList, ['>']]
  | 5 => [['>'], "0007".toList, ['>']]
  | 6 => [['>'], ['>']]
  | _ => []

/-- The record of the domain that step `k` feeds is the empty object; the
steps `$` and `%` feed no domain. -/
def domainEmpty (k : Nat) (r : Result) : Prop :=
  match k with
  | 1 => r.signal = some none
  | 2 => r.position = some none
  | 3 => r.inclin = some none
  | 4 => r.attitude = some none
  | 5 => r.status = some none
  | _ => True


/-- Texts an atom matches. -/
def Atom.lang : Atom → Str → Prop
  | .one p, w => ∃ c, w = [c] ∧ p c = true
  | .opt p, w => w = [] ∨ ∃ c, w = [c] ∧ p c = true
  | .star p, w => ∀ c ∈ w, p c = true
  | .plus p, w => w ≠ [] ∧ ∀ c ∈ w, p c = true

/-- Texts a sequence of atoms matches: concatenations of matched texts. -/
def atomsLang : List Atom → Str → Prop
  | [], w => w = []
  | a :: as, w => ∃ u v, w = u ++ v ∧ a.lang u ∧ atomsLang as v

/-- Texts a pattern element matches. -/
def Node.lang : Node → Str → Prop
  | .atom a, w => a.lang w
  | .group body, w => atomsLang body w

/-- Texts a pattern matches as a whole. -/
def regexLang : Regex → Str → Prop
  | [], w => w = []
  | n :: ns, w => ∃ u v, w = u ++ v ∧ n.lang u ∧ regexLang ns v

/-- The line `s` matches the grammar `re`: some part of it is a text of the
pattern. -/
def Matches (re : Regex) (s : Str) : Prop :=
  ∃ pre w post, s = pre ++ w ++ post ∧ regexLang re w


theorem land_two_pow_ne_zero (n i : Nat) : ((n &&& 2 ^ i) != 0) = n.testBit i := by
  cases h : n.testBit i
  · have h0 : n &&& 2 ^ i = 0 := by
      apply Nat.eq_of_testBit_eq
      intro j
      by_cases hij : i = j
      · subst hij; simp [h]
      · simp [Nat.testBit_two_pow, hij]
    simp [h0]
  · have h1 : (n &&& 2 ^ i).testBit i = true := by simp [h, Nat.testBit_two_pow]
    have h2 : n &&& 2 ^ i ≠ 0 := by
      intro h0
      rw [h0] at h1
      simp at h1
    simpa using h2

theorem hexDigitVal_lt (c : Char) (h : isHex c = true) : hexDigitVal c < 16 := by
  unfold isHex isDigit at h
  unfold hexDigitVal isDigit
  simp only [Bool.or_eq_true, Bool.and_eq_true, decide_eq_true_eq] at h ⊢
  split_ifs <;> omega

theorem find?_skip {α : Type} (p : α → Bool) (pre : List α) (s : α) (post : List α)
    (hpre : ∀ x ∈ pre, p x = false) (hs : p s = true) :
    (pre ++ s :: post).find? p = some s := by
  induction pre with
  | nil => simp [hs]
  | cons a pre ih =>
    have ha : p a = false := hpre a (by simp)
    simp only [List.cons_append, List.find?, ha]
    exact ih (fun x hx => hpre x (by simp [hx]))

/-- C3: on a block whose first line of exactly four hexadecimal digits is
`s`, `parseStatus` returns `raw = s` and the flags NIDOK, TRACKF, THRSF, SRCHF
equal to bits 0, 1, 2, 3 of the 16-bit value of `s`; these bits are those of
the last digit alone, so the upper twelve bits have no influence; `0007`
gives NIDOK, TRACKF, THRSF set and SRCHF clear. -/
theorem parseStatus_decodes_first_hex4 (pre post : List Str) (a b c d : Char)
    (hpre : ∀ x ∈ pre, isHex4 x = false)
    (ha : isHex a = true) (hb : isHex b = true) (hc : isHex c = true) (hd : isHex d = true) :
    parseStatus (pre ++ [a, b, c, d] :: post) =
        some { raw := [a, b, c, d],
               NIDOK := (parseInt16 [a, b, c, d]).testBit 0,
               TRACKF := (parseInt16 [a, b, c, d]).testBit 1,
               THRSF := (parseInt16 [a, b, c, d]).testBit 2,
               SRCHF := (parseInt16 [a, b, c, d]).testBit 3 } ∧
      parseInt16 [a, b, c, d] < 2 ^ 16 ∧
      (∀ i, i < 4 → (parseInt16 [a, b, c, d]).testBit i = (hexDigitVal d).testBit i) ∧
      parseStatus ["0007".toList] =
        some { raw := "0007".toList, NIDOK := true, TRACKF := true, THRSF := true,
               SRCHF := false } := by
  have hsel : isHex4 [a, b, c, d] = true := by simp [isHex4, ha, hb, hc, hd]
  have hfind := find?_skip isHex4 pre [a, b, c, d] post hpre hsel
  have e0 := land_two_pow_ne_zero (parseInt16 [a, b, c, d]) 0
  have e1 := land_two_pow_ne_zero (parseInt16 [a, b, c, d]) 1
  have e2 := land_two_pow_ne_zero (parseInt16 [a, b, c, d]) 2
  have e3 := land_two_pow_ne_zero (parseInt16 [a, b, c, d]) 3
  norm_num at e0 e1 e2 e3
  have la := hexDigitVal_lt a ha
  have lb := hexDigitVal_lt b hb
  have lc := hexDigitVal_lt c hc
  have ld := hexDigitVal_lt d hd
  refine ⟨?_, ?_, ?_, by decide⟩
  · simp only [parseStatus, hfind]
    simp [← e0, ← e1, ← e2, ← e3]
  · simp only [parseInt16, List.foldl]
    omega
  · intro i hi
    have hval : parseInt16 [a, b, c, d] =
        2 ^ 4 * (16 * (16 * hexDigitVal a + hexDigitVal b) + hexDigitVal c) + hexDigitVal d := by
      simp only [parseInt16, List.foldl]
      omega
    rw [hval, Nat.testBit_mul_pow_two_add _ (by simpa using ld)]
    simp [hi]

/-- Witness of C3: the status word `Ab07` after a line that is not a status
word and before a second status word. -/
theorem parseStatus_decodes_first_hex4_witness :
    parseStatus (["zz".toList] ++ ['A', 'b', '0', '7'] :: ["FFF8".toList]) =
        some { raw := ['A', 'b', '0', '7'],
               NIDOK := (parseInt16 ['A', 'b', '0', '7']).testBit 0,
               TRACKF := (parseInt16 ['A', 'b', '0', '7']).testBit 1,
               THRSF := (parseInt16 ['A', 'b', '0', '7']).testBit 2,
               SRCHF := (parseInt16 ['A', 'b', '0', '7']).testBit 3 } ∧
    parseInt16 ['A', 'b', '0', '7'] = 0xAB07 :=
  ⟨(parseStatus_decodes_first_hex4 ["zz".toList] ["FFF8".toList] 'A' 'b' '0' '7'
      (by decide) (by decide) (by decide) (by decide) (by decide)).1, by decide⟩

theorem nonBlank_cons_blank (l : Str) (ls : List Str) (h : (trim l).isEmpty = true) :
    nonBlank (l :: ls) = nonBlank ls := by
  simp [nonBlank, h]

theorem nonBlank_cons_data (l : Str) (ls : List Str) (h : (trim l).isEmpty = false) :
    nonBlank (l :: ls) = trim l :: nonBlank ls := by
  simp [nonBlank, h]

theorem foldl_onData_done (c : Collector) (h : c.listening = false) (ls : List Str) :
    ls.foldl onData c = c := by
  induction ls with
  | nil => rfl
  | cons l ls ih =>
    have : onData c l = c := by simp [onData, h]
    simp only [List.foldl, this, ih]

theorem onData_collecting_blank (acc : List Str) (l : Str) (h : (trim l).isEmpty = true) :
    onData (collecting acc) l = collecting acc := by
  simp [onData, collecting, h]

theorem onData_collecting_data (acc : List Str) (l : Str) (h : (trim l).isEmpty = false)
    (hs : trim l ∉ sentinels) :
    onData (collecting acc) l = collecting (acc ++ [trim l]) := by
  simp [onData, collecting, h, hs]

theorem onData_collecting_sentinel (acc : List Str) (l : Str) (hs : trim l ∈ sentinels) :
    onData (collecting acc) l =
      { lines := acc, started := true, listening := false, resolved := some acc } := by
  have he : (trim l).isEmpty = false := by
    simp only [sentinels, List.mem_cons, List.mem_singleton, List.not_mem_nil, or_false] at hs
    rcases hs with h | h | h <;> simp [h]
  simp [onData, collecting, he, hs]

theorem foldl_onData_collecting (ls : List Str) :
    ∀ acc : List Str, (∀ x ∈ nonBlank ls, x ∉ sentinels) →
      ls.foldl onData (collecting acc) = collecting (acc ++ nonBlank ls) := by
  induction ls with
  | nil => intro acc _; simp [nonBlank]
  | cons l ls ih =>
    intro acc h
    cases hb : (trim l).isEmpty
    · rw [nonBlank_cons_data l ls hb] at h ⊢
      have hs : trim l ∉ sentinels := h _ (by simp)
      simp only [List.foldl, onData_collecting_data acc l hb hs]
      rw [ih (acc ++ [trim l]) (fun x hx => h x (by simp [hx]))]
      simp
    · rw [nonBlank_cons_blank l ls hb] at h ⊢
      simp only [List.foldl, onData_collecting_blank acc l hb]
      exact ih acc h

theorem onData_init_blank (l : Str) (h : (trim l).isEmpty = true) :
    onData Collector.init l = Collector.init := by
  simp [onData, Collector.init, h]

theorem onData_init_start (l : Str) (h : trim l = ['>']) :
    onData Collector.init l = collecting [] := by
  simp [onData, Collector.init, collecting, h]

theorem onData_init_data (l : Str) (h : (trim l).isEmpty = false) (hs : trim l ≠ ['>']) :
    onData Collector.init l = collecting [trim l] := by
  simp [onData, Collector.init, collecting, h, hs]

theorem feed_unsettled (ls : List Str) (h : ∀ x ∈ (nonBlank ls).tail, x ∉ sentinels) :
    feed ls = (match nonBlank ls with
      | [] => Collector.init
      | _ :: _ => collecting (buffered ls)) := by
  induction ls with
  | nil => simp [feed, nonBlank]
  | cons l ls ih =>
    cases hb : (trim l).isEmpty
    · have hnb := nonBlank_cons_data l ls hb
      rw [hnb] at h
      simp only [List.tail_cons] at h
      simp only [hnb, buffered]
      by_cases hs : trim l = ['>']
      · simp only [feed, List.foldl, onData_init_start l hs]
        rw [foldl_onData_collecting ls [] h]
        simp [hs]
      · simp only [feed, List.foldl, onData_init_data l hb hs]
        rw [foldl_onData_collecting ls [trim l] h]
        simp [hs]
    · have hnb := nonBlank_cons_blank l ls hb
      rw [hnb] at h
      have ih' := ih h
      simp only [feed, List.foldl, onData_init_blank l hb] at ih' ⊢
      rw [ih']
      simp only [hnb, buffered]


theorem trim_sentinel (T : Str) (h : T ∈ sentinels) : trim T = T := by
  simp only [sentinels, List.mem_cons, List.mem_singleton, List.not_mem_nil, or_false] at h
  rcases h with h | h | h <;> subst h <;> decide

theorem collect_of_feed_collecting (ls acc : List Str) (h : feed ls = collecting acc) :
    collect ls = if acc.isEmpty then [timeoutLine] else acc := by
  cases acc with
  | nil => simp [collect, h, onTimeout, collecting]
  | cons a acc => simp [collect, h, onTimeout, collecting]

/-- C4: a start sentinel, data lines with blank lines interleaved, a terminal
sentinel and any further lines, all delivered before the deadline, make the
collector yield exactly the trimmed data lines in arrival order. -/
theorem collect_yields_data_lines (ds mid further : List Str) (T : Str)
    (hds : ∀ d ∈ ds, (trim d).isEmpty = false ∧ trim d ∉ sentinels)
    (hmid : mid.filter (fun l => !(trim l).isEmpty) = ds)
    (hT : T ∈ sentinels) :
    collect ([['>']] ++ mid ++ [T] ++ further) = ds.map trim := by
  have hnb : nonBlank mid = ds.map trim := by
    rw [← hmid]
    simp [nonBlank, List.filter_map, Function.comp_def]
  have hno : ∀ x ∈ nonBlank mid, x ∉ sentinels := by
    rw [hnb]
    intro x hx
    obtain ⟨d, hd, rfl⟩ := List.mem_map.1 hx
    exact (hds d hd).2
  have hstart : onData Collector.init ['>'] = collecting [] :=
    onData_init_start ['>'] (by decide)
  have hfeed : feed ([['>']] ++ mid ++ [T] ++ further) =
      { lines := ds.map trim, started := true, listening := false,
        resolved := some (ds.map trim) } := by
    simp only [feed, List.foldl_append, List.foldl_cons, List.foldl_nil, List.singleton_append,
      hstart]
    rw [foldl_onData_collecting mid [] hno, List.nil_append, hnb,
      onData_collecting_sentinel (ds.map trim) T (by rw [trim_sentinel T hT]; exact hT)]
    exact foldl_onData_done _ rfl further
  simp only [collect, hfeed, onTimeout]

/-- Witness of C4: `>`, ` a `, a blank line, `b`, `#`, then `z`. -/
theorem collect_yields_data_lines_witness :
    collect ([['>']] ++ [" a ".toList, [], ['b']] ++ [['#']] ++ [['z']]) =
      [" a ".toList, ['b']].map trim ∧
    [" a ".toList, ['b']].map trim = [['a'], ['b']] :=
  ⟨collect_yields_data_lines [" a ".toList, ['b']] [" a ".toList, [], ['b']] [['z']] ['#']
      (by decide) (by decide) (by decide), by decide⟩

/-- C5: when no terminal sentinel arrives while the collector is collecting,
the collector is unsettled at the deadline, which then yields the buffered
lines in arrival order, or the single placeholder when none was buffered. -/
theorem collect_deadline_yields_buffer (ls : List Str)
    (h : ∀ x ∈ (nonBlank ls).tail, x ∉ sentinels) :
    (feed ls).resolved = none ∧
    (feed ls).lines = buffered ls ∧
    (onTimeout (feed ls)).resolved = some (collect ls) ∧
    collect ls = (if (buffered ls).isEmpty then [timeoutLine] else buffered ls) ∧
    (nonBlank ls = [] → collect ls = [timeoutLine]) ∧
    (nonBlank ls = [['>']] → collect ls = [timeoutLine]) := by
  have hf := feed_unsettled ls h
  have hcol : collect ls = (if (buffered ls).isEmpty then [timeoutLine] else buffered ls) := by
    cases hn : nonBlank ls with
    | nil =>
      rw [hn] at hf
      simp [collect, hf, onTimeout, Collector.init, buffered, hn]
    | cons x xs =>
      rw [hn] at hf
      exact collect_of_feed_collecting ls _ hf
  have hres : (feed ls).resolved = none := by
    rw [hf]; cases nonBlank ls <;> rfl
  refine ⟨hres, ?_, ?_, hcol, ?_, ?_⟩
  · rw [hf]
    cases hn : nonBlank ls with
    | nil => simp [Collector.init, buffered, hn]
    | cons x xs => simp [collecting]
  · simp [collect, onTimeout, hres]
  · intro hn
    rw [hcol]; simp [buffered, hn]
  · intro hn
    rw [hcol]; simp [buffered, hn]

/-- Witness of C5: two data lines and no sentinel; nothing at all; blank
lines only; a start sentinel only. -/
theorem collect_deadline_yields_buffer_witness :
    collect [" x ".toList, [], ['y']] = [['x'], ['y']] ∧
    collect [] = [timeoutLine] ∧
    collect [[' '], []] = [timeoutLine] ∧
    collect [['>']] = [timeoutLine] :=
  ⟨(collect_deadline_yields_buffer [" x ".toList, [], ['y']] (by decide)).2.2.2.1,
   (collect_deadline_yields_buffer [] (by decide)).2.2.2.2.1 (by decide),
   (collect_deadline_yields_buffer [[' '], []] (by decide)).2.2.2.2.1 (by decide),
   (collect_deadline_yields_buffer [['>']] (by decide)).2.2.2.2.2 (by decide)⟩


theorem writesOf_append (xs ys : List Event) : writesOf (xs ++ ys) = writesOf xs ++ writesOf ys := by
  induction xs with
  | nil => rfl
  | cons e xs ih => cases e <;> simp [writesOf, ih]

/-- C6: a poll trigger that cannot start returns its fixed answer and leaves
the server state (busy flag and history of actions: no write, no listener)
exactly as it was. -/
theorem apiStatus_cannot_start_no_effect (env : Nat → StepEnv) (sv : Server) :
    (channelOpen sv = false →
      apiStatus env sv = ({ connected := false, busy := none, result := Result.empty }, sv)) ∧
    (channelOpen sv = true → sv.busy = true →
      apiStatus env sv =
        ({ connected := true, busy := some true, result := Result.empty }, sv)) := by
  rcases sv with ⟨port, busy, log⟩
  constructor
  · intro h
    cases port with
    | none => simp [apiStatus]
    | some p => simp [channelOpen] at h; simp [apiStatus, h]
  · intro h hb
    cases port with
    | none => simp [channelOpen] at h
    | some p =>
      simp [channelOpen] at h
      simp at hb
      simp [apiStatus, h, hb]

/-- Witness of C6: a closed port, a port object that is not open, and an
open port with a poll in flight. -/
theorem apiStatus_cannot_start_no_effect_witness :
    apiStatus (raiseAt 9) { port := none, busy := false, log := [] } =
      ({ connected := false, busy := none, result := Result.empty },
       { port := none, busy := false, log := [] }) ∧
    apiStatus (raiseAt 9) { port := some { isOpen := false }, busy := true, log := [] } =
      ({ connected := false, busy := none, result := Result.empty },
       { port := some { isOpen := false }, busy := true, log := [] }) ∧
    apiStatus (raiseAt 9) { port := some { isOpen := true }, busy := true,
                            log := [Event.subscribe, Event.write ['$', '\r']] } =
      ({ connected := true, busy := some true, result := Result.empty },
       { port := some { isOpen := true }, busy := true,
         log := [Event.subscribe, Event.write ['$', '\r']] }) :=
  ⟨(apiStatus_cannot_start_no_effect (raiseAt 9) _).1 rfl,
   (apiStatus_cannot_start_no_effect (raiseAt 9) _).1 rfl,
   (apiStatus_cannot_start_no_effect (raiseAt 9) _).2 rfl rfl⟩

theorem sendAndWait_settles (cmd : Str) (env : StepEnv) (log : List Event)
    (h : env.writeRaises = false) :
    sendAndWait cmd env log = (some (collect env.arrivals), log ++ stepTrace cmd env) := by
  cases hf : env.writeFails <;> simp [sendAndWait, stepTrace, h, hf]

theorem apiStatus_all_settle (env : Nat → StepEnv) (p : Port) (log : List Event)
    (hopen : p.isOpen = true) (hw : ∀ i, i < 7 → (env i).writeRaises = false) :
    apiStatus env { port := some p, busy := false, log := log } =
      ({ connected := true, busy := none,
         result := { signal := some (parseR (collect (env 1).arrivals)),
                     position := some (parseP (collect (env 2).arrivals)),
                     inclin := some (parseH (collect (env 3).arrivals)),
                     attitude := some (parseG (collect (env 4).arrivals)),
                     status := some (parseStatus (collect (env 5).arrivals)) } },
       { port := some p, busy := false, log := log ++ pollTrace env }) := by
  have h0 := hw 0 (by decide)
  have h1 := hw 1 (by decide)
  have h2 := hw 2 (by decide)
  have h3 := hw 3 (by decide)
  have h4 := hw 4 (by decide)
  have h5 := hw 5 (by decide)
  have h6 := hw 6 (by decide)
  simp only [apiStatus, pollBody, hopen, sendAndWait_settles _ _ _ h0,
    sendAndWait_settles _ _ _ h1, sendAndWait_settles _ _ _ h2, sendAndWait_settles _ _ _ h3,
    sendAndWait_settles _ _ _ h4, sendAndWait_settles _ _ _ h5, sendAndWait_settles _ _ _ h6,
    pollTrace, Result.empty]
  simp

theorem writesOf_stepTrace (cmd : Str) (env : StepEnv) :
    writesOf (stepTrace cmd env) = [cmd ++ ['\r']] := by
  cases hf : env.writeFails <;> simp [stepTrace, hf, writesOf]

theorem writesOf_pollTrace (env : Nat → StepEnv) :
    writesOf (pollTrace env) =
      [['$', '\r'], ['R', '\r'], ['P', '\r'], ['H', '\r'], ['G', '\r'], ['^', 'S', '\r'],
       ['%', '\r']] := by
  simp only [pollTrace, writesOf_append, writesOf_stepTrace]
  rfl

theorem writesAwaitSettle_stepTrace (cmd : Str) (env : StepEnv) (rest : List Event) :
    writesAwaitSettle false (stepTrace cmd env ++ rest) = writesAwaitSettle false rest := by
  cases hf : env.writeFails <;> simp [stepTrace, hf, writesAwaitSettle]

theorem writesAwaitSettle_delay (ms : Nat) (rest : List Event) :
    writesAwaitSettle false (Event.delay ms :: rest) = writesAwaitSettle false rest := by
  simp [writesAwaitSettle]

theorem writesAwaitSettle_pollTrace (env : Nat → StepEnv) :
    writesAwaitSettle false (pollTrace env) = true := by
  have h := writesAwaitSettle_stepTrace ['%'] (env 6) []
  rw [List.append_nil] at h
  simp only [pollTrace, List.append_assoc, List.singleton_append, List.cons_append, List.nil_append,
    writesAwaitSettle_stepTrace, writesAwaitSettle_delay, h]
  rfl


/-- C7: in a poll that starts and whose steps all settle, each domain key is
present and holds the parse of its own step's block, a step that timed out
with an empty buffer gives the empty record, and the busy flag is false at
the end. -/
theorem poll_timeouts_give_empty_records (env : Nat → StepEnv) (p : Port) (log : List Event)
    (hopen : p.isOpen = true) (hw : ∀ i, i < 7 → (env i).writeRaises = false) :
    (apiStatus env { port := some p, busy := false, log := log }).1.connected = true ∧
    (apiStatus env { port := some p, busy := false, log := log }).2.busy = false ∧
    (apiStatus env { port := some p, busy := false, log := log }).1.result =
      { signal := some (parseR (collect (env 1).arrivals)),
        position := some (parseP (collect (env 2).arrivals)),
        inclin := some (parseH (collect (env 3).arrivals)),
        attitude := some (parseG (collect (env 4).arrivals)),
        status := some (parseStatus (collect (env 5).arrivals)) } ∧
    (collect (env 1).arrivals = [timeoutLine] →
      (apiStatus env { port := some p, busy := false, log := log }).1.result.signal
        = some none) ∧
    (collect (env 2).arrivals = [timeoutLine] →
      (apiStatus env { port := some p, busy := false, log := log }).1.result.position
        = some none) ∧
    (collect (env 3).arrivals = [timeoutLine] →
      (apiStatus env { port := some p, busy := false, log := log }).1.result.inclin
        = some none) ∧
    (collect (env 4).arrivals = [timeoutLine] →
      (apiStatus env { port := some p, busy := false, log := log }).1.result.attitude
        = some none) ∧
    (collect (env 5).arrivals = [timeoutLine] →
      (apiStatus env { port := some p, busy := false, log := log }).1.result.status
        = some none) ∧
    parseR [timeoutLine] = none ∧ parseP [timeoutLine] = none ∧ parseH [timeoutLine] = none ∧
    parseG [timeoutLine] = none ∧ parseStatus [timeoutLine] = none := by
  have hR : parseR [timeoutLine] = none := by decide
  have hP : parseP [timeoutLine] = none := by decide
  have hH : parseH [timeoutLine] = none := by decide
  have hG : parseG [timeoutLine] = none := by decide
  have hS : parseStatus [timeoutLine] = none := by decide
  rw [apiStatus_all_settle env p log hopen hw]
  refine ⟨rfl, rfl, rfl, ?_, ?_, ?_, ?_, ?_, hR, hP, hH, hG, hS⟩
  · intro h; simp only [h, hR]
  · intro h; simp only [h, hP]
  · intro h; simp only [h, hH]
  · intro h; simp only [h, hG]
  · intro h; simp only [h, hS]

/-- Witness of C7: the `R` and `H` steps hear nothing before their deadline,
the other steps are answered. -/
theorem poll_timeouts_give_empty_records_witness :
    (collect (quietEnv sampleArrivals 1).arrivals = [timeoutLine] ∧
     collect (quietEnv sampleArrivals 3).arrivals = [timeoutLine] ∧
     collect (quietEnv sampleArrivals 5).arrivals = ["0007".toList]) ∧
    ((apiStatus (quietEnv sampleArrivals)
        { port := some { isOpen := true }, busy := false, log := [] }).1.connected = true ∧
     (apiStatus (quietEnv sampleArrivals)
        { port := some { isOpen := true }, busy := false, log := [] }).2.busy = false ∧
     (apiStatus (quietEnv sampleArrivals)
        { port := some { isOpen := true }, busy := false, log := [] }).1.result =
      { signal := some (parseR (collect (quietEnv sampleArrivals 1).arrivals)),
        position := some (parseP (collect (quietEnv sampleArrivals 2).arrivals)),
        inclin := some (parseH (collect (quietEnv sampleArrivals 3).arrivals)),
        attitude := some (parseG (collect (quietEnv sampleArrivals 4).arrivals)),
        status := some (parseStatus (collect (quietEnv sampleArrivals 5).arrivals)) }) :=
  ⟨by decide,
   (poll_timeouts_give_empty_records (quietEnv sampleArrivals) { isOpen := true } [] rfl
      (fun _ _ => rfl)).1,
   (poll_timeouts_give_empty_records (quietEnv sampleArrivals) { isOpen := true } [] rfl
      (fun _ _ => rfl)).2.1,
   (poll_timeouts_give_empty_records (quietEnv sampleArrivals) { isOpen := true } [] rfl
      (fun _ _ => rfl)).2.2.1⟩

/-- C10: in a started poll in which no write raises, the handler writes the
seven commands, each followed by a carriage return, once each and in order,
never while the collector of the previous step is pending; the blocks of
`R`, `P`, `H`, `G`, `^S` feed the five domains and those of `$` and `%` feed
none. -/
theorem poll_writes_fixed_sequence (env : Nat → StepEnv) (p : Port) (log : List Event)
    (hopen : p.isOpen = true) (hw : ∀ i, i < 7 → (env i).writeRaises = false) :
    (apiStatus env { port := some p, busy := false, log := log }).2.log
      = log ++ pollTrace env ∧
    writesOf (pollTrace env) =
      [['$', '\r'], ['R', '\r'], ['P', '\r'], ['H', '\r'], ['G', '\r'], ['^', 'S', '\r'],
       ['%', '\r']] ∧
    writesAwaitSettle false (pollTrace env) = true ∧
    (apiStatus env { port := some p, busy := false, log := log }).1.result =
      { signal := some (parseR (collect (env 1).arrivals)),
        position := some (parseP (collect (env 2).arrivals)),
        inclin := some (parseH (collect (env 3).arrivals)),
        attitude := some (parseG (collect (env 4).arrivals)),
        status := some (parseStatus (collect (env 5).arrivals)) } := by
  rw [apiStatus_all_settle env p log hopen hw]
  exact ⟨rfl, writesOf_pollTrace env, writesAwaitSettle_pollTrace env, rfl⟩

/-- Witness of C10: the poll of the idle server with the sample arrivals. -/
theorem poll_writes_fixed_sequence_witness :
    writesOf (apiStatus (quietEnv sampleArrivals)
        { port := some { isOpen := true }, busy := false, log := [] }).2.log =
      [['$', '\r'], ['R', '\r'], ['P', '\r'], ['H', '\r'], ['G', '\r'], ['^', 'S', '\r'],
       ['%', '\r']] := by
  have h := poll_writes_fixed_sequence (quietEnv sampleArrivals) { isOpen := true } [] rfl
    (fun _ _ => rfl)
  rw [h.1, List.nil_append]
  exact h.2.1

theorem collect_silent (ls : List Str) (h : nonBlank ls = []) : collect ls = [timeoutLine] := by
  have hf := feed_unsettled ls (by rw [h]; simp)
  rw [h] at hf
  simp [collect, hf, onTimeout, Collector.init]

/-- C8: when the write of step `k` fails (`port.write` returns and the port
reports the failure on its `error` event, where it is logged), the poll goes
on: all seven steps register their listener, write their command and run
their collector, in order and each after the previous settlement; every
domain holds the record parsed from its own step's block; the failed step,
hearing nothing because its command never reached the device, settles with
`["(timeout)"]` and gives the empty record; the busy flag is cleared. -/
theorem poll_continues_after_failed_write (env : Nat → StepEnv) (p : Port)
    (log : List Event) (k : Nat)
    (hopen : p.isOpen = true) (hk : k < 7)
    (hw : ∀ i, i < 7 → (env i).writeRaises = false)
    (hfail : (env k).writeFails = true) :
    (apiStatus env { port := some p, busy := false, log := log }).2.log
      = log ++ pollTrace env ∧
    Event.writeError ∈ stepTrace (commands.getD k []) (env k) ∧
    writesOf (pollTrace env) =
      [['$', '\r'], ['R', '\r'], ['P', '\r'], ['H', '\r'], ['G', '\r'], ['^', 'S', '\r'],
       ['%', '\r']] ∧
    writesAwaitSettle false (pollTrace env) = true ∧
    (apiStatus env { port := some p, busy := false, log := log }).1.connected = true ∧
    (apiStatus env { port := some p, busy := false, log := log }).1.result =
      { signal := some (parseR (collect (env 1).arrivals)),
        position := some (parseP (collect (env 2).arrivals)),
        inclin := some (parseH (collect (env 3).arrivals)),
        attitude := some (parseG (collect (env 4).arrivals)),
        status := some (parseStatus (collect (env 5).arrivals)) } ∧
    (nonBlank (env k).arrivals = [] →
      collect (env k).arrivals = [timeoutLine] ∧
      domainEmpty k (apiStatus env { port := some p, busy := false, log := log }).1.result) ∧
    (apiStatus env { port := some p, busy := false, log := log }).2.busy = false := by
  have hR : parseR [timeoutLine] = none := by decide
  have hP : parseP [timeoutLine] = none := by decide
  have hH : parseH [timeoutLine] = none := by decide
  have hG : parseG [timeoutLine] = none := by decide
  have hS : parseStatus [timeoutLine] = none := by decide
  rw [apiStatus_all_settle env p log hopen hw]
  refine ⟨rfl, ?_, writesOf_pollTrace env, writesAwaitSettle_pollTrace env, rfl, rfl, ?_, rfl⟩
  · simp [stepTrace, hfail]
  · intro hs
    have hc := collect_silent _ hs
    refine ⟨hc, ?_⟩
    interval_cases k
    · trivial
    · simp only [domainEmpty, hc, hR]
    · simp only [domainEmpty, hc, hP]
    · simp only [domainEmpty, hc, hH]
    · simp only [domainEmpty, hc, hG]
    · simp only [domainEmpty, hc, hS]
    · trivial

/-- Witness of C8: the write of `P` fails and the `P` step hears nothing;
the other steps are answered. -/
theorem poll_continues_after_failed_write_witness :
    ((failAt 2 silentP 2).writeFails = true ∧ nonBlank (failAt 2 silentP 2).arrivals = []) ∧
    writesOf (apiStatus (failAt 2 silentP)
        { port := some { isOpen := true }, busy := false, log := [] }).2.log =
      [['$', '\r'], ['R', '\r'], ['P', '\r'], ['H', '\r'], ['G', '\r'], ['^', 'S', '\r'],
       ['%', '\r']] ∧
    (apiStatus (failAt 2 silentP)
        { port := some { isOpen := true }, busy := false, log := [] }).1.result.position =
      some none ∧
    (apiStatus (failAt 2 silentP)
        { port := some { isOpen := true }, busy := false, log := [] }).1.result.status =
      some (some { raw := "0007".toList, NIDOK := true, TRACKF := true, THRSF := true,
                   SRCHF := false }) ∧
    (apiStatus (failAt 2 silentP)
        { port := some { isOpen := true }, busy := false, log := [] }).2.busy = false := by
  have h := poll_continues_after_failed_write (failAt 2 silentP) { isOpen := true } [] 2 rfl
    (by decide) (fun _ _ => rfl) rfl
  refine ⟨⟨rfl, by decide⟩, ?_, ?_, ?_, h.2.2.2.2.2.2.2⟩
  · rw [h.1, List.nil_append]; exact h.2.2.1
  · exact (h.2.2.2.2.2.2.1 (by decide)).2
  · rw [h.2.2.2.2.2.1]; decide


/-! ## The matcher and the language of a pattern -/

theorem mStar_sound {R : Type} (p : Char → Bool) (k : Str → Option R) (r : R) :
    ∀ s : Str, mStar p s k = some r →
      ∃ u v, s = u ++ v ∧ (∀ c ∈ u, p c = true) ∧ k v = some r := by
  intro s
  induction s with
  | nil =>
    intro h
    exact ⟨[], [], rfl, by simp, by simpa [mStar] using h⟩
  | cons c cs ih =>
    intro h
    unfold mStar at h
    by_cases hp : p c = true
    · rw [if_pos hp] at h
      cases hm : mStar p cs k with
      | some r' =>
        rw [hm] at h
        obtain ⟨u, v, hs, hu, hk⟩ := ih (by rw [hm]; exact congrArg some (Option.some.inj h))
        refine ⟨c :: u, v, by simp [hs], ?_, hk⟩
        intro x hx
        rcases List.mem_cons.1 hx with rfl | hx
        · exact hp
        · exact hu x hx
      | none =>
        rw [hm] at h
        exact ⟨[], c :: cs, rfl, by simp, h⟩
    · rw [if_neg hp] at h
      exact ⟨[], c :: cs, rfl, by simp, h⟩

theorem mStar_isSome_of_cont {R : Type} (p : Char → Bool) (k : Str → Option R) :
    ∀ v : Str, (k v).isSome = true → (mStar p v k).isSome = true := by
  intro v hv
  cases v with
  | nil => simpa [mStar] using hv
  | cons c cs =>
    unfold mStar
    by_cases hp : p c = true
    · rw [if_pos hp]
      cases hm : mStar p cs k with
      | some r' => rfl
      | none => exact hv
    · rw [if_neg hp]; exact hv

theorem mStar_complete {R : Type} (p : Char → Bool) (k : Str → Option R) (v : Str)
    (hv : (k v).isSome = true) :
    ∀ u : Str, (∀ c ∈ u, p c = true) → (mStar p (u ++ v) k).isSome = true := by
  intro u
  induction u with
  | nil => intro _; exact mStar_isSome_of_cont p k v hv
  | cons c u ih =>
    intro hu
    have hp : p c = true := hu c (by simp)
    have ih' := ih (fun x hx => hu x (by simp [hx]))
    rw [List.cons_append]
    unfold mStar
    rw [if_pos hp]
    cases hm : mStar p (u ++ v) k with
    | some r' => rfl
    | none => rw [hm] at ih'; simp at ih'

theorem mAtom_sound {R : Type} (a : Atom) (k : Str → Option R) (r : R) (s : Str)
    (h : mAtom a s k = some r) :
    ∃ u v, s = u ++ v ∧ a.lang u ∧ k v = some r := by
  cases a with
  | one p =>
    cases s with
    | nil => simp [mAtom] at h
    | cons c cs =>
      by_cases hp : p c = true
      · simp only [mAtom, hp, if_true] at h
        exact ⟨[c], cs, rfl, ⟨c, rfl, hp⟩, h⟩
      · simp [mAtom, hp] at h
  | opt p =>
    cases s with
    | nil =>
      simp only [mAtom] at h
      exact ⟨[], [], rfl, Or.inl rfl, h⟩
    | cons c cs =>
      by_cases hp : p c = true
      · simp only [mAtom, hp, if_true] at h
        cases hk : k cs with
        | some r' =>
          rw [hk] at h
          exact ⟨[c], cs, rfl, Or.inr ⟨c, rfl, hp⟩, by rw [hk]; exact h⟩
        | none =>
          rw [hk] at h
          exact ⟨[], c :: cs, rfl, Or.inl rfl, h⟩
      · simp only [mAtom, hp] at h
        exact ⟨[], c :: cs, rfl, Or.inl rfl, by simpa using h⟩
  | star p =>
    simp only [mAtom] at h
    obtain ⟨u, v, hs, hu, hk⟩ := mStar_sound p k r s h
    exact ⟨u, v, hs, hu, hk⟩
  | plus p =>
    cases s with
    | nil => simp [mAtom] at h
    | cons c cs =>
      by_cases hp : p c = true
      · simp only [mAtom, hp, if_true] at h
        obtain ⟨u, v, hs, hu, hk⟩ := mStar_sound p k r cs h
        refine ⟨c :: u, v, by simp [hs], ⟨by simp, ?_⟩, hk⟩
        intro x hx
        rcases List.mem_cons.1 hx with rfl | hx
        · exact hp
        · exact hu x hx
      · simp [mAtom, hp] at h

theorem mAtom_complete {R : Type} (a : Atom) (k : Str → Option R) (u v : Str)
    (hu : a.lang u) (hv : (k v).isSome = true) :
    (mAtom a (u ++ v) k).isSome = true := by
  cases a with
  | one p =>
    obtain ⟨c, rfl, hp⟩ := hu
    simpa [mAtom, hp] using hv
  | opt p =>
    rcases hu with rfl | ⟨c, rfl, hp⟩
    · cases v with
      | nil => simpa [mAtom] using hv
      | cons c cs =>
        by_cases hp : p c = true
        · simp only [List.nil_append, mAtom, hp, if_true]
          cases hk : k cs with
          | some r' => rfl
          | none => exact hv
        · simpa [mAtom, hp] using hv
    · simp only [List.singleton_append, mAtom, hp, if_true]
      cases hk : k v with
      | some r' => rfl
      | none => rw [hk] at hv; simp at hv
  | star p =>
    exact mStar_complete p k v hv u hu
  | plus p =>
    obtain ⟨hne, hall⟩ := hu
    cases u with
    | nil => exact absurd rfl hne
    | cons c cs =>
      have hp : p c = true := hall c (by simp)
      simp only [List.cons_append, mAtom, hp, if_true]
      exact mStar_complete p k v hv cs (fun x hx => hall x (by simp [hx]))

theorem mAtoms_sound {R : Type} (as : List Atom) :
    ∀ (k : Str → Option R) (r : R) (s : Str), mAtoms as s k = some r →
      ∃ u v, s = u ++ v ∧ atomsLang as u ∧ k v = some r := by
  induction as with
  | nil =>
    intro k r s h
    exact ⟨[], s, rfl, rfl, by simpa [mAtoms] using h⟩
  | cons a as ih =>
    intro k r s h
    simp only [mAtoms] at h
    obtain ⟨u, v, hs, hu, hk⟩ := mAtom_sound a _ r s h
    obtain ⟨u', v', hs', hu', hk'⟩ := ih k r v hk
    exact ⟨u ++ u', v', by rw [hs, hs', List.append_assoc], ⟨u, u', rfl, hu, hu'⟩, hk'⟩

theorem mAtoms_complete {R : Type} (as : List Atom) :
    ∀ (k : Str → Option R) (u v : Str), atomsLang as u → (k v).isSome = true →
      (mAtoms as (u ++ v) k).isSome = true := by
  induction as with
  | nil =>
    intro k u v hu hv
    have : u = [] := hu
    subst this
    simpa [mAtoms] using hv
  | cons a as ih =>
    intro k u v hu hv
    obtain ⟨u1, u2, rfl, h1, h2⟩ := hu
    simp only [mAtoms, List.append_assoc]
    exact mAtom_complete a _ u1 (u2 ++ v) h1 (ih k u2 v h2 hv)

theorem mNodes_sound (ns : Regex) :
    ∀ (s rest : Str) (caps : List Str), mNodes ns s = some (rest, caps) →
      ∃ u, s = u ++ rest ∧ regexLang ns u := by
  induction ns with
  | nil =>
    intro s rest caps h
    simp only [mNodes, Option.some.injEq, Prod.mk.injEq] at h
    exact ⟨[], by simp [h.1], rfl⟩
  | cons n ns ih =>
    intro s rest caps h
    cases n with
    | atom a =>
      simp only [mNodes] at h
      obtain ⟨u, v, hs, hu, hk⟩ := mAtom_sound a _ _ s h
      obtain ⟨u', hs', hu'⟩ := ih v rest caps hk
      exact ⟨u ++ u', by rw [hs, hs', List.append_assoc], ⟨u, u', rfl, hu, hu'⟩⟩
    | group body =>
      simp only [mNodes] at h
      obtain ⟨u, v, hs, hu, hk⟩ := mAtoms_sound body _ _ s h
      cases hm : mNodes ns v with
      | none => rw [hm] at hk; simp at hk
      | some rc =>
        obtain ⟨rest', caps'⟩ := rc
        rw [hm] at hk
        simp only [Option.some.injEq, Prod.mk.injEq] at hk
        obtain ⟨u', hs', hu'⟩ := ih v rest' caps' hm
        refine ⟨u ++ u', ?_, ⟨u, u', rfl, hu, hu'⟩⟩
        rw [hs, hs', List.append_assoc, hk.1]

theorem mNodes_complete (ns : Regex) :
    ∀ (u rest : Str), regexLang ns u → (mNodes ns (u ++ rest)).isSome = true := by
  induction ns with
  | nil =>
    intro u rest hu
    simp [mNodes]
  | cons n ns ih =>
    intro u rest hu
    obtain ⟨u1, u2, rfl, h1, h2⟩ := hu
    have ih' := ih u2 rest h2
    cases n with
    | atom a =>
      simp only [mNodes, List.append_assoc]
      exact mAtom_complete a _ u1 (u2 ++ rest) h1 ih'
    | group body =>
      simp only [mNodes, List.append_assoc]
      refine mAtoms_complete body _ u1 (u2 ++ rest) h1 ?_
      cases hm : mNodes ns (u2 ++ rest) with
      | none => rw [hm] at ih'; simp at ih'
      | some rc => rfl

theorem regexMatch_sound (re : Regex) :
    ∀ (s : Str) (m : List Str), regexMatch re s = some m → Matches re s := by
  intro s
  induction s with
  | nil =>
    intro m h
    simp only [regexMatch] at h
    cases hm : mNodes re [] with
    | none => rw [hm] at h; simp at h
    | some rc =>
      obtain ⟨rest, caps⟩ := rc
      obtain ⟨u, hs, hu⟩ := mNodes_sound re [] rest caps hm
      exact ⟨[], u, rest, by simpa using hs, hu⟩
  | cons c cs ih =>
    intro m h
    simp only [regexMatch] at h
    cases hm : mNodes re (c :: cs) with
    | none =>
      rw [hm] at h
      obtain ⟨pre, w, post, hs, hw⟩ := ih m h
      exact ⟨c :: pre, w, post, by simp [hs], hw⟩
    | some rc =>
      obtain ⟨rest, caps⟩ := rc
      obtain ⟨u, hs, hu⟩ := mNodes_sound re (c :: cs) rest caps hm
      exact ⟨[], u, rest, by simpa using hs, hu⟩

theorem regexMatch_complete (re : Regex) (w post : Str) (hw : regexLang re w) :
    ∀ pre : Str, (regexMatch re (pre ++ w ++ post)).isSome = true := by
  have hhere : ∀ s, (mNodes re s).isSome = true → (regexMatch re s).isSome = true := by
    intro s hs
    cases s with
    | nil =>
      simp only [regexMatch]
      cases hm : mNodes re [] with
      | none => rw [hm] at hs; simp at hs
      | some rc => rfl
    | cons c cs =>
      simp only [regexMatch]
      cases hm : mNodes re (c :: cs) with
      | none => rw [hm] at hs; simp at hs
      | some rc => rfl
  intro pre
  induction pre with
  | nil =>
    simp only [List.nil_append]
    exact hhere _ (mNodes_complete re w post hw)
  | cons c pre ih =>
    simp only [List.cons_append, regexMatch]
    cases hm : mNodes re (c :: (pre ++ w ++ post)) with
    | none => simpa using ih
    | some rc => rfl

theorem regexMatch_eq_none_iff (re : Regex) (s : Str) :
    regexMatch re s = none ↔ ¬ Matches re s := by
  constructor
  · intro h hm
    obtain ⟨pre, w, post, rfl, hw⟩ := hm
    have := regexMatch_complete re w post hw pre
    rw [h] at this
    simp at this
  · intro h
    cases hm : regexMatch re s with
    | none => rfl
    | some m => exact absurd (regexMatch_sound re s m hm) h


/-! ## Greedy captures -/

theorem mStar_greedy {R : Type} (p : Char → Bool) (k : Str → Option R) (r : R) (v : Str)
    (hv : mStar p v k = some r) :
    ∀ u : Str, (∀ c ∈ u, p c = true) → mStar p (u ++ v) k = some r := by
  intro u
  induction u with
  | nil => intro _; exact hv
  | cons c u ih =>
    intro hu
    have hp : p c = true := hu c (by simp)
    rw [List.cons_append]
    unfold mStar
    rw [if_pos hp, ih (fun x hx => hu x (by simp [hx]))]

theorem mStar_stop {R : Type} (p : Char → Bool) (k : Str → Option R) (v : Str)
    (hv : ∀ c, v.head? = some c → p c = false) : mStar p v k = k v := by
  cases v with
  | nil => simp [mStar]
  | cons c cs =>
    have hp : p c = false := hv c rfl
    simp [mStar, hp]

theorem mStar_none {R : Type} (p : Char → Bool) (k : Str → Option R) :
    ∀ s : Str, (∀ t, t <:+ s → k t = none) → mStar p s k = none := by
  intro s
  induction s with
  | nil => intro h; simpa [mStar] using h [] (List.suffix_refl _)
  | cons c cs ih =>
    intro h
    have h1 : mStar p cs k = none :=
      ih (fun t ht => h t (List.IsSuffix.trans ht (List.suffix_cons c cs)))
    have h2 : k (c :: cs) = none := h _ (List.suffix_refl _)
    unfold mStar
    split_ifs
    · rw [h1]; exact h2
    · exact h2

theorem take_captured (ds rest : Str) :
    (ds ++ rest).take ((ds ++ rest).length - rest.length) = ds := by
  have : (ds ++ rest).length - rest.length = ds.length := by simp
  rw [this, List.take_left]

theorem digits_capture (ns : Regex) (ds rest r : Str) (caps : List Str)
    (hne : ds ≠ []) (hds : ∀ c ∈ ds, isDigit c = true)
    (hrest : ∀ c, rest.head? = some c → isDigit c = false)
    (hk : mNodes ns rest = some (r, caps)) :
    mNodes (digits :: ns) (ds ++ rest) = some (r, ds :: caps) := by
  cases ds with
  | nil => exact absurd rfl hne
  | cons d ds =>
    have hd : isDigit d = true := hds d (by simp)
    simp only [digits, mNodes, mAtoms, mAtom, List.cons_append, hd, if_true]
    apply mStar_greedy _ _ _ _ _ ds (fun x hx => hds x (by simp [hx]))
    rw [mStar_stop _ _ _ hrest, hk]
    have := take_captured (d :: ds) rest
    simp only [List.cons_append] at this
    rw [this]

theorem lit_match (c : Char) (ns : Regex) (s : Str) :
    mNodes (lit c :: ns) (c :: s) = mNodes ns s := by
  simp [lit, mNodes, mAtom]

theorem lit_mismatch (c x : Char) (ns : Regex) (s : Str) (h : x ≠ c) :
    mNodes (lit c :: ns) (x :: s) = none := by
  simp [lit, mNodes, mAtom, h]

theorem star_unfold (p : Char → Bool) (ns : Regex) (s : Str) :
    mNodes (Node.atom (Atom.star p) :: ns) s = mStar p s (fun s' => mNodes ns s') := rfl

theorem regexMatch_skip (re : Regex) (c : Char) (cs : Str) (h : mNodes re (c :: cs) = none) :
    regexMatch re (c :: cs) = regexMatch re cs := by
  rw [regexMatch, h]

theorem regexMatch_here (re : Regex) (c : Char) (cs rest : Str) (caps : List Str)
    (h : mNodes re (c :: cs) = some (rest, caps)) :
    regexMatch re (c :: cs) = some ((c :: cs).take ((c :: cs).length - rest.length) :: caps) := by
  rw [regexMatch, h]

theorem digit_ne_colon (x : Char) (h : isDigit x = true) : x ≠ ':' := by
  rintro rfl
  revert h
  decide

theorem digit_not_sign (x : Char) (h : isDigit x = true) : (x == '-') = false ∧ (x == '+') = false := by
  constructor
  · cases hx : x == '-'
    · rfl
    · have : x = '-' := by simpa using hx
      subst this
      revert h; decide
  · cases hx : x == '+'
    · rfl
    · have : x = '+' := by simpa using hx
      subst this
      revert h; decide

theorem Number_digits (ds : Str) (hne : ds ≠ []) (hds : ∀ c ∈ ds, isDigit c = true) :
    Number ds = roundDouble false (natOfDigits ds) 1 := by
  cases ds with
  | nil => exact absurd rfl hne
  | cons d ds =>
    obtain ⟨h1, h2⟩ := digit_not_sign d (hds d (by simp))
    have ht : (d :: ds).takeWhile isDigit = d :: ds := List.takeWhile_eq_self_iff.2 hds
    have hdrop : (d :: ds).dropWhile isDigit = [] := List.dropWhile_eq_nil_iff.2 hds
    simp only [Number, h1, h2, unsignedValue, ht, hdrop]
    simp

theorem reR_tail (f c : Str) (hc : c ≠ []) (hcd : ∀ x ∈ c, isDigit x = true)
    (hf : ∀ x ∈ f, isLineTerminator x = false) :
    mNodes [Node.atom (Atom.star isDot), lit ':', digits] (f ++ ':' :: c) = some ([], [c]) := by
  have hlast : mNodes [digits] c = some ([], [c]) := by
    have := digits_capture [] c [] [] [] hc hcd (by simp) rfl
    simpa using this
  rw [star_unfold]
  apply mStar_greedy _ _ _ _ _ f (fun x hx => by simp [isDot, hf x hx])
  have hnone : mStar isDot c (fun s' => mNodes [lit ':', digits] s') = none := by
    apply mStar_none
    intro t ht
    cases t with
    | nil => simp [lit, mNodes, mAtom]
    | cons x xs =>
      have hx : x ∈ c := ht.subset (by simp)
      exact lit_mismatch ':' x _ xs (digit_ne_colon x (hcd x hx))
  have hdot : isDot ':' = true := by decide
  unfold mStar
  rw [if_pos hdot, hnone]
  show mNodes [lit ':', digits] (':' :: c) = some ([], [c])
  rw [lit_match, hlast]

theorem reR_captures (l t n f c : Str)
    (hl : l ≠ []) (hld : ∀ x ∈ l, isDigit x = true)
    (ht : t ≠ []) (htd : ∀ x ∈ t, isDigit x = true)
    (hn : n ≠ []) (hnd : ∀ x ∈ n, isDigit x = true)
    (hc : c ≠ []) (hcd : ∀ x ∈ c, isDigit x = true)
    (hf0 : ∀ x, f.head? = some x → isDigit x = false)
    (hf : ∀ x ∈ f, isLineTerminator x = false) :
    ∃ m0, regexMatch reR ('>' :: 'L' :: (l ++ 't' :: (t ++ 'N' :: (n ++ (f ++ ':' :: c))))) =
      some [m0, l, t, n, c] := by
  have h3 := reR_tail f c hc hcd hf
  have hrest3 : ∀ x, (f ++ ':' :: c).head? = some x → isDigit x = false := by
    intro x hx
    cases f with
    | nil =>
      simp only [List.nil_append, List.head?_cons, Option.some.injEq] at hx
      subst hx; decide
    | cons y ys =>
      simp only [List.cons_append, List.head?_cons, Option.some.injEq] at hx
      subst hx; exact hf0 _ rfl
  have h2 := digits_capture _ n (f ++ ':' :: c) [] [c] hn hnd hrest3 h3
  have h2' : mNodes (lit 'N' :: digits :: [Node.atom (Atom.star isDot), lit ':', digits])
      ('N' :: (n ++ (f ++ ':' :: c))) = some ([], [n, c]) := by
    rw [lit_match]; exact h2
  have h1 := digits_capture _ t ('N' :: (n ++ (f ++ ':' :: c))) [] [n, c] ht htd
    (by intro x hx; simp only [List.head?_cons, Option.some.injEq] at hx; subst hx; decide) h2'
  have h1' : mNodes (lit 't' :: digits :: lit 'N' :: digits ::
      [Node.atom (Atom.star isDot), lit ':', digits])
      ('t' :: (t ++ 'N' :: (n ++ (f ++ ':' :: c)))) = some ([], [t, n, c]) := by
    rw [lit_match]; exact h1
  have h0 := digits_capture _ l ('t' :: (t ++ 'N' :: (n ++ (f ++ ':' :: c)))) [] [t, n, c]
    hl hld
    (by intro x hx; simp only [List.head?_cons, Option.some.injEq] at hx; subst hx; decide) h1'
  have hL : mNodes reR ('L' :: (l ++ 't' :: (t ++ 'N' :: (n ++ (f ++ ':' :: c))))) =
      some ([], [l, t, n, c]) := by
    rw [reR, lit_match]; exact h0
  have hgt : mNodes reR ('>' :: 'L' :: (l ++ 't' :: (t ++ 'N' :: (n ++ (f ++ ':' :: c))))) =
      none := by
    rw [reR]; exact lit_mismatch 'L' '>' _ _ (by decide)
  rw [regexMatch_skip _ _ _ hgt, regexMatch_here _ _ _ _ _ hL]
  exact ⟨_, rfl⟩


/-! ## Numbers -/

theorem log2Aux_spec : ∀ (fuel n : Nat), n ≤ fuel → n ≠ 0 →
    2 ^ log2Aux fuel n ≤ n ∧ n < 2 ^ (log2Aux fuel n + 1) := by
  intro fuel
  induction fuel with
  | zero => intro n h hn; omega
  | succ fuel ih =>
    intro n h hn
    unfold log2Aux
    by_cases h2 : n < 2
    · rw [if_pos h2]
      have : n = 1 := by omega
      subst this
      decide
    · rw [if_neg h2]
      obtain ⟨ha, hb⟩ := ih (n / 2) (by omega) (by omega)
      rw [Nat.pow_succ, Nat.pow_succ, Nat.pow_succ]
      rw [Nat.pow_succ] at hb
      constructor <;> omega

theorem log2_spec (n : Nat) (hn : n ≠ 0) : 2 ^ log2 n ≤ n ∧ n < 2 ^ (log2 n + 1) :=
  log2Aux_spec n n (Nat.le_refl n) hn

theorem roundHalfEven_one (a : Nat) : roundHalfEven a 1 = a := by
  simp [roundHalfEven, Nat.mod_one]

theorem floorLog2_one (n : Nat) (hn : n ≠ 0) : floorLog2 n 1 = (log2 n : Int) := by
  have h1 : log2 1 = 0 := by decide
  have hle := (log2_spec n hn).1
  simp only [floorLog2, h1]
  have e1 : ((log2 n : Int) - ((0 : Nat) : Int)).toNat = log2 n := by simp
  have e2 : (-((log2 n : Int) - ((0 : Nat) : Int))).toNat = 0 := by simp
  rw [e1, e2]
  simp [hle]

/-- A natural number below `2^53` is its own double. -/
theorem roundDouble_nat_exact (n : Nat) (h : n < 2 ^ 53) :
    (roundDouble false n 1).toRat = some (n : ℚ) := by
  by_cases hn : n = 0
  · subst hn; simp [roundDouble, JsNumber.toRat]
  · obtain ⟨hle, hlt⟩ := log2_spec n hn
    have hl : log2 n < 53 := by
      by_contra hc
      have : 2 ^ 53 ≤ 2 ^ log2 n := Nat.pow_le_pow_right (by decide) (by omega)
      omega
    obtain ⟨j, hj⟩ : ∃ j, log2 n + j = 52 := ⟨52 - log2 n, by omega⟩
    have he : max (floorLog2 n 1 - 52) (-1074) = -(j : Int) := by
      rw [floorLog2_one n hn]; omega
    have hm : n * 2 ^ j < 2 ^ 53 := by
      have : 2 ^ (log2 n + 1) * 2 ^ j = 2 ^ 53 := by
        rw [← Nat.pow_add]; congr 1; omega
      calc n * 2 ^ j < 2 ^ (log2 n + 1) * 2 ^ j :=
            Nat.mul_lt_mul_of_pos_right hlt (Nat.pow_pos (by decide))
        _ = 2 ^ 53 := this
    have hpos : n * 2 ^ j ≠ 0 := by
      have : 0 < n * 2 ^ j := Nat.mul_pos (Nat.pos_of_ne_zero hn) (Nat.pow_pos (by decide))
      omega
    have e1 : (-(-(j : Int))).toNat = j := by simp
    have e2 : (-(j : Int)).toNat = 0 := by simp
    have h971 : ¬ (971 < -(j : Int)) := by omega
    simp only [roundDouble, hn, if_false, he, e1, e2, pow_zero, Nat.mul_one,
      roundHalfEven_one, hpos, Nat.ne_of_lt hm, h971, JsNumber.toRat, Option.some.injEq]
    have h2 : ((2 : ℚ) ^ j) ≠ 0 := by positivity
    push_cast
    rw [zpow_neg, zpow_natCast]
    field_simp


/-! ## Line selection -/

theorem pick_none (sel : Str → Bool) (lines : List Str) (h : lines.find? sel = none) :
    pick sel lines = [] := by
  simp [pick, h]

theorem pick_first (sel : Str → Bool) (pre post : List Str) (s : Str)
    (hpre : ∀ x ∈ pre, sel x = false) (hs : sel s = true) :
    pick sel (pre ++ s :: post) = s := by
  simp [pick, find?_skip sel pre s post hpre hs]

theorem pick_single (sel : Str → Bool) (s : Str) (hs : sel s = true) : pick sel [s] = s :=
  pick_first sel [] [] s (by simp) hs

theorem parseR_eq_none_iff (lines : List Str) :
    parseR lines = none ↔ regexMatch reR (pick selR lines) = none := by
  cases h : regexMatch reR (pick selR lines) <;> simp [parseR, h]

theorem parseP_eq_none_iff (lines : List Str) :
    parseP lines = none ↔ regexMatch reP (pick selP lines) = none := by
  cases h : regexMatch reP (pick selP lines) <;> simp [parseP, h]

theorem parseH_eq_none_iff (lines : List Str) :
    parseH lines = none ↔ regexMatch reH (pick selH lines) = none := by
  cases h : regexMatch reH (pick selH lines) <;> simp [parseH, h]

theorem parseG_eq_none_iff (lines : List Str) :
    parseG lines = none ↔ regexMatch reG (pick selG lines) = none := by
  cases h : regexMatch reG (pick selG lines) <;> simp [parseG, h]

theorem parseStatus_eq_none_iff (lines : List Str) :
    parseStatus lines = none ↔ lines.find? isHex4 = none := by
  cases h : lines.find? isHex4 with
  | none => simp [parseStatus, h]
  | some d =>
    have hd : isHex4 d = true := List.find?_some h
    have hne : d.isEmpty = false := by
      cases d with
      | nil => simp [isHex4] at hd
      | cons a as => rfl
    simp [parseStatus, h, hne]

theorem parseR_congr (a b : List Str) (h : pick selR a = pick selR b) : parseR a = parseR b := by
  simp only [parseR, h]

theorem parseP_congr (a b : List Str) (h : pick selP a = pick selP b) : parseP a = parseP b := by
  simp only [parseP, h]

theorem parseH_congr (a b : List Str) (h : pick selH a = pick selH b) : parseH a = parseH b := by
  simp only [parseH, h]

theorem parseG_congr (a b : List Str) (h : pick selG a = pick selG b) : parseG a = parseG b := by
  simp only [parseG, h]

theorem parseStatus_congr (a b : List Str) (h : a.find? isHex4 = b.find? isHex4) :
    parseStatus a = parseStatus b := by
  simp only [parseStatus, h]

theorem selR_prefixed (rest : Str) : selR ('>' :: 'L' :: rest) = true := by
  simp [selR, includes, List.isPrefixOf]


/-- Counterexample to C2: the filler is a line feed, which does not begin
with a digit and is not a colon, and the parser returns the empty record. -/
theorem parseR_reads_signal_line_counterexample :
    (∀ x, ['\n'].head? = some x → isDigit x = false) ∧ ':' ∉ ['\n'] ∧
    parseR ['>' :: 'L' :: (['1'] ++ 't' :: (['2'] ++ 'N' :: (['3'] ++ (['\n'] ++ ':' :: ['4']))))]
      = none := by
  decide

/-- C2, amended: on a block whose first line containing `L` is
`>L<l>t<t>N<n><f>:<c>`, with `l`, `t`, `n`, `c` non-empty runs of digits and
a filler `f` that does not begin with a digit, holds no colon and holds no
line terminator, `parseR` returns `l`, `t`, `c` as numbers (the double
nearest to the integer the digits denote, which is that integer itself below
`2^53`) and `n` as text. -/
theorem parseR_reads_signal_line (pre post : List Str) (l t n f c : Str)
    (hpre : ∀ x ∈ pre, selR x = false)
    (hl : l ≠ []) (hld : ∀ x ∈ l, isDigit x = true)
    (ht : t ≠ []) (htd : ∀ x ∈ t, isDigit x = true)
    (hn : n ≠ []) (hnd : ∀ x ∈ n, isDigit x = true)
    (hc : c ≠ []) (hcd : ∀ x ∈ c, isDigit x = true)
    (hf0 : ∀ x, f.head? = some x → isDigit x = false)
    (_hfc : ':' ∉ f)
    (hf : ∀ x ∈ f, isLineTerminator x = false) :
    parseR (pre ++ ('>' :: 'L' :: (l ++ 't' :: (t ++ 'N' :: (n ++ (f ++ ':' :: c))))) :: post) =
      some { level := roundDouble false (natOfDigits l) 1,
             threshold := roundDouble false (natOfDigits t) 1,
             nid := n,
             count := roundDouble false (natOfDigits c) 1 } ∧
    (∀ v : Nat, v < 2 ^ 53 → (roundDouble false v 1).toRat = some (v : ℚ)) := by
  obtain ⟨m0, hm⟩ := reR_captures l t n f c hl hld ht htd hn hnd hc hcd hf0 hf
  have hp := pick_first selR pre post _ hpre
    (selR_prefixed (l ++ 't' :: (t ++ 'N' :: (n ++ (f ++ ':' :: c)))))
  refine ⟨?_, roundDouble_nat_exact⟩
  simp only [parseR, hp, hm, grp, List.getD_cons_succ, List.getD_cons_zero,
    Number_digits l hl hld, Number_digits t ht htd, Number_digits c hc hcd]

/-- Witness of the amended C2: the line `>L2234t2033N055F@@R1:35` gives the
numbers 2234, 2033 and 35 and the text `055`. -/
theorem parseR_reads_signal_line_witness :
    parseR [">L2234t2033N055F@@R1:35".toList] =
      some { level := roundDouble false 2234 1, threshold := roundDouble false 2033 1,
             nid := "055".toList, count := roundDouble false 35 1 } ∧
    (roundDouble false 2234 1).toRat = some 2234 ∧
    (roundDouble false 2033 1).toRat = some 2033 ∧
    (roundDouble false 35 1).toRat = some 35 := by
  have h := parseR_reads_signal_line [] [] "2234".toList "2033".toList "055".toList
    "F@@R1".toList "35".toList (by simp) (by decide) (by decide) (by decide) (by decide)
    (by decide) (by decide) (by decide) (by decide) (by decide) (by decide) (by decide)
  have e1 : natOfDigits "2234".toList = 2234 := by decide
  have e2 : natOfDigits "2033".toList = 2033 := by decide
  have e3 : natOfDigits "35".toList = 35 := by decide
  rw [e1, e2, e3] at h
  exact ⟨h.1, by simpa using h.2 2234 (by norm_num), by simpa using h.2 2033 (by norm_num),
    by simpa using h.2 35 (by norm_num)⟩

/-- C1 at its failing input: the block `[">E0372A1993p0015R0000"]` gives the
empty record, as does every block whose only line begins with `>`, because
the line selection `l.startsWith('E')` rejects the line; the pattern itself
finds the four fields in it, and the same line without the leading `>` gives
the record of the example (the numbers 37.2, 199.3, 1.5 and 0). -/
theorem parseP_rejects_prefixed_line :
    parseP [">E0372A1993p0015R0000".toList] = none ∧
    (∀ body : Str, parseP ['>' :: body] = none) ∧
    regexMatch reP ">E0372A1993p0015R0000".toList =
      some ["E0372A1993p0015R0000".toList, "0372".toList, "1993".toList, "0015".toList,
            "0000".toList] ∧
    parseP ["E0372A1993p0015R0000".toList] =
      some { el := roundDouble false 372 10, az := roundDouble false 1993 10,
             pol := roundDouble false 15 10, rel := roundDouble false 0 1 } := by
  refine ⟨by decide, ?_, by decide, by decide⟩
  intro body
  have hp : pick selP ['>' :: body] = [] := by
    simp [pick, selP, startsWith, List.find?, List.isPrefixOf]
  have hm : regexMatch reP [] = none := by decide
  simp only [parseP, hp, hm]

/-- C9: each of the five parsers returns, on every block, either the empty
record (`none`) or a complete record (`some r`, every field present), being a
total function of the block. The result is the empty record when no line
satisfies the selection predicate, and exactly when the selected line does
not match the parser's grammar (for `parseStatus`, whose predicate is its
grammar, exactly when no line is selected). The lines before and after the
first selected line have no influence: the result is that of the block
holding the selected line alone. -/
theorem parsers_total_on_first_selected_line (lines pre post : List Str) (s : Str) :
    ((parseR lines = none ∨ ∃ r, parseR lines = some r) ∧
     (parseP lines = none ∨ ∃ r, parseP lines = some r) ∧
     (parseH lines = none ∨ ∃ r, parseH lines = some r) ∧
     (parseG lines = none ∨ ∃ r, parseG lines = some r) ∧
     (parseStatus lines = none ∨ ∃ r, parseStatus lines = some r)) ∧
    ((lines.find? selR = none → parseR lines = none) ∧
     (lines.find? selP = none → parseP lines = none) ∧
     (lines.find? selH = none → parseH lines = none) ∧
     (lines.find? selG = none → parseG lines = none) ∧
     (lines.find? isHex4 = none → parseStatus lines = none)) ∧
    ((parseR lines = none ↔ ¬ Matches reR (pick selR lines)) ∧
     (parseP lines = none ↔ ¬ Matches reP (pick selP lines)) ∧
     (parseH lines = none ↔ ¬ Matches reH (pick selH lines)) ∧
     (parseG lines = none ↔ ¬ Matches reG (pick selG lines)) ∧
     (parseStatus lines = none ↔ lines.find? isHex4 = none)) ∧
    (((∀ x ∈ pre, selR x = false) → selR s = true →
        parseR (pre ++ s :: post) = parseR [s]) ∧
     ((∀ x ∈ pre, selP x = false) → selP s = true →
        parseP (pre ++ s :: post) = parseP [s]) ∧
     ((∀ x ∈ pre, selH x = false) → selH s = true →
        parseH (pre ++ s :: post) = parseH [s]) ∧
     ((∀ x ∈ pre, selG x = false) → selG s = true →
        parseG (pre ++ s :: post) = parseG [s]) ∧
     ((∀ x ∈ pre, isHex4 x = false) → isHex4 s = true →
        parseStatus (pre ++ s :: post) = parseStatus [s])) := by
  have eR : regexMatch reR [] = none := by decide
  have eP : regexMatch reP [] = none := by decide
  have eH : regexMatch reH [] = none := by decide
  have eG : regexMatch reG [] = none := by decide
  refine ⟨⟨?_, ?_, ?_, ?_, ?_⟩, ⟨?_, ?_, ?_, ?_, ?_⟩, ⟨?_, ?_, ?_, ?_, ?_⟩, ⟨?_, ?_, ?_, ?_, ?_⟩⟩
  · cases h : parseR lines with
    | none => exact Or.inl rfl
    | some r => exact Or.inr ⟨r, rfl⟩
  · cases h : parseP lines with
    | none => exact Or.inl rfl
    | some r => exact Or.inr ⟨r, rfl⟩
  · cases h : parseH lines with
    | none => exact Or.inl rfl
    | some r => exact Or.inr ⟨r, rfl⟩
  · cases h : parseG lines with
    | none => exact Or.inl rfl
    | some r => exact Or.inr ⟨r, rfl⟩
  · cases h : parseStatus lines with
    | none => exact Or.inl rfl
    | some r => exact Or.inr ⟨r, rfl⟩
  · intro h; rw [parseR_eq_none_iff, pick_none selR lines h]; exact eR
  · intro h; rw [parseP_eq_none_iff, pick_none selP lines h]; exact eP
  · intro h; rw [parseH_eq_none_iff, pick_none selH lines h]; exact eH
  · intro h; rw [parseG_eq_none_iff, pick_none selG lines h]; exact eG
  · intro h; exact (parseStatus_eq_none_iff lines).2 h
  · rw [parseR_eq_none_iff, regexMatch_eq_none_iff]
  · rw [parseP_eq_none_iff, regexMatch_eq_none_iff]
  · rw [parseH_eq_none_iff, regexMatch_eq_none_iff]
  · rw [parseG_eq_none_iff, regexMatch_eq_none_iff]
  · exact parseStatus_eq_none_iff lines
  · intro hpre hs
    exact parseR_congr _ _ (by rw [pick_first selR pre post s hpre hs, pick_single selR s hs])
  · intro hpre hs
    exact parseP_congr _ _ (by rw [pick_first selP pre post s hpre hs, pick_single selP s hs])
  · intro hpre hs
    exact parseH_congr _ _ (by rw [pick_first selH pre post s hpre hs, pick_single selH s hs])
  · intro hpre hs
    exact parseG_congr _ _ (by rw [pick_first selG pre post s hpre hs, pick_single selG s hs])
  · intro hpre hs
    exact parseStatus_congr _ _
      (by rw [find?_skip isHex4 pre s post hpre hs]
          exact (find?_skip isHex4 [] s [] (by simp) hs).symm)

/-- Witness of C9: a block without any selected line; a block whose selected
signal line is garbled; a status word followed by a second status word. -/
theorem parsers_total_on_first_selected_line_witness :
    parseH [['>'], "abc".toList] = none ∧
    (¬ Matches reR (pick selR ["xLy".toList]) ∧ parseR ["xLy".toList] = none) ∧
    parseStatus (["zz".toList] ++ "0007".toList :: ["FFFF".toList]) =
      parseStatus ["0007".toList] :=
  ⟨(parsers_total_on_first_selected_line [['>'], "abc".toList] [] [] []).2.1.2.2.1
      (by decide),
   ⟨(parsers_total_on_first_selected_line ["xLy".toList] [] [] []).2.2.1.1.1 (by decide),
    by decide⟩,
   (parsers_total_on_first_selected_line [] ["zz".toList] ["FFFF".toList]
      "0007".toList).2.2.2.2.2.2.2 (by decide) (by decide)⟩


end ST24
